import Mathlib

/-!
Verification of the font/glyph resolution-and-caching core of
`enso/graphics/font.py` (enso-launcher-continued).

The Python module is shallowly embedded below: the mutable module/class
state (the flyweight cache, the shared cairo context, the
`_used_font_logged` flag and the emitted log) is threaded explicitly
through a `ProcState`; Python exceptions (the `KeyError` raised by
`config.FONT_NAME["normal"]` when the key is absent) become `Except`;
numeric (float) quantities become `Rat`.
-/

namespace EnsoFont

/-- Font slant as selected in `Font.__init__`:
`cairo.FONT_SLANT_ITALIC` when `isItalic`, else `cairo.FONT_SLANT_NORMAL`. -/
inductive Slant where
  | normal
  | italic
  deriving DecidableEq

/-- Font weight; `loadInto` always passes `cairo.FONT_WEIGHT_NORMAL`. -/
inductive Weight where
  | normal
  deriving DecidableEq

/-- The diagnostics the module can emit through `logging`.  Each constructor
corresponds to one `logging.*` call site in `font.py`. -/
inductive LogMsg where
  /-- `logging.info("Font used: " + repr(font_detail))` in `get_font_name`. -/
  | infoFontUsed (filepath : String)
  /-- `logging.error("Specified font was not found in the system: ...")`
  in `get_font_name`. -/
  | errorFontNotFound (fontId : String)
  /-- `logging.error("There is no FONT_NAME setting in enso.config.")`. -/
  | errorNoFontNameSetting
  /-- `logging.warning("Using default 'Arial.ttf' font.")`. -/
  | warningDefaultArial
  deriving DecidableEq

/-- The module-level logging state: the `_used_font_logged` flag plus the
sequence of messages emitted so far. -/
structure LogSt where
  usedFontLogged : Bool
  log : List LogMsg
  deriving DecidableEq

/-- Append one log message (the flag is untouched). -/
def LogSt.addMsg (st : LogSt) (m : LogMsg) : LogSt :=
  ⟨st.usedFontLogged, st.log ++ [m]⟩

/-- A Python exception escaping `loadInto` (dictionary `KeyError`). -/
inductive PyErr where
  | keyError (key : String)
  deriving DecidableEq

/-- The optional `config.FONT_NAME` dictionary, restricted to the two keys
the code consults (`has_key("normal")` / `has_key("italic")`). -/
structure FontNameCfg where
  normal : Option String
  italic : Option String
  deriving DecidableEq

/-- The `enso.config` settings object: `FONT_NAME` is `none` when
`hasattr(config, "FONT_NAME")` is false. -/
structure Config where
  FONT_NAME : Option FontNameCfg
  deriving DecidableEq

/-- The platform font registry
(`_graphics.FontRegistry.get().get_font_detail`): font id to file path,
`none` when the font is not installed. -/
def Registry : Type := String → Option String

/-- Python truthiness test `not x` for an optional string
(`None` and `""` are falsy). -/
def pyOptFalsy (o : Option String) : Bool :=
  match o with
  | none => true
  | some s => decide (s = "")

/-- `os.path.join` specialised to the Windows separator, as used for the
Arial fallback path. -/
def osPathJoin (dir file : String) : String :=
  if dir = "" then file
  else if dir.endsWith "\\" then dir ++ file
  else dir ++ "\\" ++ file

/-- The nested helper `get_font_name` of `Font.loadInto`: queries the
platform font registry and logs a diagnostic (only while
`_used_font_logged` is still false, setting it). -/
def get_font_name (reg : Registry) (font_id : String) (lst : LogSt) :
    Option String × LogSt :=
  match reg font_id with
  | some filepath =>
      (some filepath,
        if lst.usedFontLogged then lst
        else ⟨true, lst.log ++ [LogMsg.infoFontUsed filepath]⟩)
  | none =>
      (none,
        if lst.usedFontLogged then lst
        else ⟨true, lst.log ++ [LogMsg.errorFontNotFound font_id]⟩)

/-- The terminal fallback of the Windows branch: when the configured
search produced a falsy `font_name`, warn and use
`os.path.join(fonts_dir, "arial.ttf")`. -/
def winTerminal (fontsDir : String) (p : Option String × LogSt) :
    String × LogSt :=
  if pyOptFalsy p.1 then
    (osPathJoin fontsDir "arial.ttf", p.2.addMsg LogMsg.warningDefaultArial)
  else (p.1.getD "", p.2)

/-- The terminal fallback of the non-Windows branch: a falsy `font_name`
becomes the literal `"Helvetica"`. -/
def nonWinTerminal (o : Option String) (lst0 : LogSt) : String × LogSt :=
  if pyOptFalsy o then ("Helvetica", lst0) else (o.getD "", lst0)

/-- The `sys.platform.startswith("win")` branch of `Font.loadInto`,
restricted to its one-time resolution block (`if not self.font_name:`).
Returns the value stored into `self.font_name`.  Accessing
`config.FONT_NAME["normal"]` when that key is absent raises `KeyError`. -/
def resolveWin (cfg : Config) (reg : Registry) (isItalic : Bool)
    (fontsDir : String) (lst : LogSt) : Except PyErr (String × LogSt) :=
  let lst0 := if cfg.FONT_NAME.isNone then lst.addMsg LogMsg.errorNoFontNameSetting else lst
  let step : Except PyErr (Option String × LogSt) :=
    if isItalic then
      match cfg.FONT_NAME with
      | some fn =>
          let p :=
            match fn.italic with
            | some fontId => get_font_name reg fontId lst0
            | none => (none, lst0)
          if pyOptFalsy p.1 then
            match fn.normal with
            | some fontId => Except.ok (get_font_name reg fontId p.2)
            | none => Except.error (PyErr.keyError "normal")
          else Except.ok p
      | none => Except.ok (none, lst0)
    else
      match cfg.FONT_NAME with
      | some fn =>
          match fn.normal with
          | some fontId => Except.ok (get_font_name reg fontId lst0)
          | none => Except.ok (none, lst0)
      | none => Except.ok (none, lst0)
  match step with
  | Except.error e => Except.error e
  | Except.ok p => Except.ok (winTerminal fontsDir p)

/-- The non-Windows branch of `Font.loadInto`, restricted to its one-time
resolution block.  Configured names are used directly (no registry);
the terminal fallback is the literal `"Helvetica"`.  Accessing
`config.FONT_NAME["normal"]` when that key is absent raises `KeyError`. -/
def resolveNonWin (cfg : Config) (isItalic : Bool) (lst : LogSt) :
    Except PyErr (String × LogSt) :=
  let lst0 := if cfg.FONT_NAME.isNone then lst.addMsg LogMsg.errorNoFontNameSetting else lst
  let step : Except PyErr (Option String) :=
    if isItalic then
      match cfg.FONT_NAME with
      | some fn =>
          if pyOptFalsy fn.italic then
            match fn.normal with
            | some v => Except.ok (some v)
            | none => Except.error (PyErr.keyError "normal")
          else Except.ok fn.italic
      | none => Except.ok none
    else
      match cfg.FONT_NAME with
      | some fn => Except.ok fn.normal
      | none => Except.ok none
  match step with
  | Except.error e => Except.error e
  | Except.ok o => Except.ok (nonWinTerminal o lst0)

/-- The font-selection state of a cairo context: the face selected by
`select_font_face` and the size set by `set_font_size`
(`none` = still the context's initial defaults). -/
structure CairoFontState where
  face : Option (String × Slant × Weight)
  size : Option Rat
  deriving DecidableEq

/-- A cairo context: its current font state plus the `save`/`restore`
stack. -/
structure CairoContext where
  current : CairoFontState
  stack : List CairoFontState
  deriving DecidableEq

/-- `cairoContext.save()`. -/
def CairoContext.save (c : CairoContext) : CairoContext :=
  ⟨c.current, c.current :: c.stack⟩

/-- `cairoContext.restore()`. -/
def CairoContext.restore (c : CairoContext) : CairoContext :=
  match c.stack with
  | [] => c
  | top :: rest => ⟨top, rest⟩

/-- `cairoContext.select_font_face(name, slant, weight)`. -/
def CairoContext.select_font_face (c : CairoContext) (nm : String)
    (sl : Slant) (w : Weight) : CairoContext :=
  ⟨⟨some (nm, sl, w), c.current.size⟩, c.stack⟩

/-- `cairoContext.set_font_size(points)`. -/
def CairoContext.set_font_size (c : CairoContext) (sz : Rat) : CairoContext :=
  ⟨⟨c.current.face, some sz⟩, c.stack⟩

/-- The fixed external environment of the module: the platform test
`sys.platform.startswith("win")`, the settings object, the platform font
registry, the platform fonts directory (`SHGetFolderLocation(CSIDL_FONTS)`),
and the two metric queries of the cairo backend
(`font_extents` and `text_extents`, both functions of the context's
currently selected font state). -/
structure Env where
  isWin : Bool
  cfg : Config
  fontRegistry : Registry
  fontsDir : String
  fontExtents : CairoFontState → Rat × Rat × Rat × Rat × Rat
  textExtents : CairoFontState → String → Rat × Rat × Rat × Rat × Rat × Rat

/-- Platform dispatch of the one-time resolution block of `Font.loadInto`. -/
def resolveFontName (env : Env) (isItalic : Bool) (lst : LogSt) :
    Except PyErr (String × LogSt) :=
  if env.isWin then resolveWin env.cfg env.fontRegistry isItalic env.fontsDir lst
  else resolveNonWin env.cfg isItalic lst

/-- `FontGlyph`: one character's metrics under a specific font.
`fontKey` stands for the non-owning back-reference `self.font`
(identified by its flyweight key). -/
structure FontGlyph where
  char : Char
  charAsUtf8 : String
  fontKey : String × Rat × Bool
  xMin : Rat
  xMax : Rat
  yMin : Rat
  yMax : Rat
  advance : Rat
  deriving DecidableEq

/-- A `Font` object: the requested properties, the lazily resolved
`font_name` (null until the first `loadInto`), the font-wide metrics set
in `__init__`, and the per-instance `getGlyph` memoization cache. -/
structure FontObj where
  name : String
  size : Rat
  isItalic : Bool
  slant : Slant
  font_name : Option String
  ascent : Rat
  descent : Rat
  height : Rat
  maxXAdvance : Rat
  maxYAdvance : Rat
  glyphCache : List (Char × FontGlyph)
  deriving DecidableEq

/-- `Font.loadInto(cairoContext)`: runs the resolution block when
`self.font_name` is still falsy, then selects the stored face and size
into the context.  Returns the updated font object, context and
logging state. -/
def loadInto (env : Env) (f : FontObj) (ctx : CairoContext) (lst : LogSt) :
    Except PyErr (FontObj × CairoContext × LogSt) :=
  match (if pyOptFalsy f.font_name then
           match resolveFontName env f.isItalic lst with
           | Except.error e => Except.error e
           | Except.ok (nm, lst1) => Except.ok ({ f with font_name := some nm }, lst1)
         else Except.ok (f, lst)) with
  | Except.error e => Except.error e
  | Except.ok (f1, lst1) =>
      Except.ok (f1,
        (ctx.select_font_face (f1.font_name.getD "") f1.slant Weight.normal).set_font_size f1.size,
        lst1)

/-- The metric transform of `FontGlyph.__init__` from the backend's
`text_extents` sextuple to `(xMin, xMax, yMin, yMax, advance)`:
`xMin = xBearing`, `xMax = xBearing + width`, `yMin = -yBearing + height`,
`yMax = -yBearing`, `advance = xAdvance`. -/
def glyphExtentsTransform (xBearing yBearing width height xAdvance yAdvance :
    Rat) : Rat × Rat × Rat × Rat × Rat :=
  (xBearing, xBearing + width, -yBearing + height, -yBearing, xAdvance)

/-- `FontGlyph.__init__(char, font, cairoContext)`: saves the context,
loads the font into it, queries `text_extents` of the UTF-8 encoded
character, applies the metric transform, restores the context. -/
def FontGlyph_init (env : Env) (f : FontObj) (ch : Char) (ctx : CairoContext)
    (lst : LogSt) : Except PyErr (FontGlyph × FontObj × CairoContext × LogSt) :=
  let charAsUtf8 := String.singleton ch
  match loadInto env f ctx.save lst with
  | Except.error e => Except.error e
  | Except.ok (f1, ctx2, lst1) =>
      let ext := env.textExtents ctx2.current charAsUtf8
      let m := glyphExtentsTransform ext.1 ext.2.1 ext.2.2.1 ext.2.2.2.1
        ext.2.2.2.2.1 ext.2.2.2.2.2
      Except.ok (⟨ch, charAsUtf8, (f.name, f.size, f.isItalic),
          m.1, m.2.1, m.2.2.1, m.2.2.2.1, m.2.2.2.2⟩,
        f1, ctx2.restore, lst1)

/-- First-match association-list lookup (the memoization dictionaries). -/
def assocFind {α β : Type} [DecidableEq α] : List (α × β) → α → Option β
  | [], _ => none
  | (k, v) :: rest, k' => if k' = k then some v else assocFind rest k'

/-- `Font.getGlyph(char)` (decorated with `@memoized`, keyed on the
instance and the character): returns the cached glyph, or constructs and
caches a fresh one. -/
def FontObj.getGlyph (env : Env) (f : FontObj) (ctx : CairoContext)
    (lst : LogSt) (ch : Char) :
    Except PyErr (FontGlyph × FontObj × CairoContext × LogSt) :=
  match assocFind f.glyphCache ch with
  | some g => Except.ok (g, f, ctx, lst)
  | none =>
      match FontGlyph_init env f ch ctx lst with
      | Except.error e => Except.error e
      | Except.ok (g, f1, ctx1, lst1) =>
          Except.ok (g, { f1 with glyphCache := (ch, g) :: f1.glyphCache },
            ctx1, lst1)

/-- `Font.getKerningDistance(charLeft, charRight)`: the stub, returning
`0.0` unconditionally. -/
def FontObj.getKerningDistance (f : FontObj) (charLeft charRight : Char) :
    Rat := 0

/-- The cairo context made on demand in `Font.__init__` from the 1x1
dummy `ImageSurface` (fresh state, empty save stack). -/
def initialContext : CairoContext := ⟨⟨none, none⟩, []⟩

/-- `Font.__init__(name, size, isItalic)`: sets the slant, creates the
shared class context if absent, saves it, runs `loadInto`, reads
`font_extents`, restores the context. -/
def Font_init (env : Env) (name : String) (size : Rat) (isItalic : Bool)
    (ctx0 : Option CairoContext) (lst : LogSt) :
    Except PyErr (FontObj × CairoContext × LogSt) :=
  let slant := if isItalic then Slant.italic else Slant.normal
  let ctx := match ctx0 with
             | none => initialContext
             | some c => c
  let f0 : FontObj := ⟨name, size, isItalic, slant, none, 0, 0, 0, 0, 0, []⟩
  match loadInto env f0 ctx.save lst with
  | Except.error e => Except.error e
  | Except.ok (f1, ctx2, lst1) =>
      let ext := env.fontExtents ctx2.current
      Except.ok ({ f1 with
          ascent := ext.1
          descent := ext.2.1
          height := ext.2.2.1
          maxXAdvance := ext.2.2.2.1
          maxYAdvance := ext.2.2.2.2 },
        ctx2.restore, lst1)

/-- The flyweight key of `Font.get`: `(name, size, isItalic)`. -/
abbrev Key : Type := String × Rat × Bool

/-- The module/class-level mutable state: the memoization table of
`Font.get`, the pool of constructed `Font` objects (object identity =
index), the shared `Font._cairoContext`, and the logging state. -/
structure ProcState where
  fontCache : List (Key × Nat)
  fonts : List FontObj
  ctx : Option CairoContext
  logSt : LogSt
  deriving DecidableEq

/-- The state at interpreter start: empty caches, no context,
`_used_font_logged = False`. -/
def initState : ProcState := ⟨[], [], none, ⟨false, []⟩⟩

/-- `Font.get(name, size, isItalic)` (memoized classmethod): on a cache
hit returns the stored instance; on a miss constructs a `Font`, stores
it and caches its identity under the key. -/
def Font_get (env : Env) (k : Key) (s : ProcState) :
    Except PyErr (Nat × ProcState) :=
  match assocFind s.fontCache k with
  | some i => Except.ok (i, s)
  | none =>
      match Font_init env k.1 k.2.1 k.2.2 s.ctx s.logSt with
      | Except.error e => Except.error e
      | Except.ok (f, ctx1, lst1) =>
          Except.ok (s.fonts.length,
            ⟨(k, s.fonts.length) :: s.fontCache, s.fonts ++ [f],
             some ctx1, lst1⟩)

/-- A sequence of `Font.get` calls, returning the object identities. -/
def runGets (env : Env) : List Key → ProcState →
    Except PyErr (List Nat × ProcState)
  | [], s => Except.ok ([], s)
  | k :: rest, s =>
      match Font_get env k s with
      | Except.error e => Except.error e
      | Except.ok (i, s1) =>
          match runGets env rest s1 with
          | Except.error e => Except.error e
          | Except.ok (is, s2) => Except.ok (i :: is, s2)

/-- The identities returned by a successful run of `Font.get` calls. -/
def idsOf (r : Except PyErr (List Nat × ProcState)) : Option (List Nat) :=
  match r with
  | Except.ok (is, _) => some is
  | Except.error _ => none

/-- The log emitted by a successful run of `Font.get` calls. -/
def logOf (r : Except PyErr (List Nat × ProcState)) : List LogMsg :=
  match r with
  | Except.ok (_, s) => s.logSt.log
  | Except.error _ => []

/-- The log after one `Font.get` call (`none` when it raised). -/
def getLog (r : Except PyErr (Nat × ProcState)) : Option (List LogMsg) :=
  match r with
  | Except.ok (_, s) => some s.logSt.log
  | Except.error _ => none

/-- Whether a call returned normally (no Python exception). -/
def isOkB {α : Type} (r : Except PyErr α) : Bool :=
  match r with
  | Except.ok _ => true
  | Except.error _ => false

/-- The pool of constructed `Font` objects after a run. -/
def fontsOf (r : Except PyErr (List Nat × ProcState)) : List FontObj :=
  match r with
  | Except.ok (_, s) => s.fonts
  | Except.error _ => []

/-- The context returned by `Font.__init__` (`none` when it raised). -/
def ctxOfFontInit (env : Env) (name : String) (size : Rat) (isItalic : Bool)
    (ctx0 : Option CairoContext) (lst : LogSt) : Option CairoContext :=
  match Font_init env name size isItalic ctx0 lst with
  | Except.ok (_, c, _) => some c
  | Except.error _ => none

/-- The context returned by `FontGlyph.__init__` (`none` when it raised). -/
def ctxOfGlyphInit (env : Env) (f : FontObj) (ch : Char) (ctx : CairoContext)
    (lst : LogSt) : Option CairoContext :=
  match FontGlyph_init env f ch ctx lst with
  | Except.ok (_, _, c, _) => some c
  | Except.error _ => none

/-- The font identifier produced by a resolution block
(`none` when it raised). -/
def resolvedName (r : Except PyErr (String × LogSt)) : Option String :=
  match r with
  | Except.ok (s, _) => some s
  | Except.error _ => none

/-- The configurations under which resolution cannot raise: `FONT_NAME`
absent, or present with a `"normal"` key. -/
def CfgOkNormal (cfg : Config) : Prop :=
  cfg.FONT_NAME = none ∨
    ∃ fn nm, cfg.FONT_NAME = some fn ∧ fn.normal = some nm

/-- The glyph cache maps each character to a glyph carrying that
character (holds for every reachable `Font`). -/
def GlyphInv (f : FontObj) : Prop :=
  ∀ p ∈ f.glyphCache, (p.2).char = p.1

/-- Every pooled `Font` object has a truthy resolved `font_name`. -/
def FontsInv (s : ProcState) : Prop :=
  ∀ f ∈ s.fonts, pyOptFalsy f.font_name = false

/-- The flyweight table is sound: entries point into the pool, and
distinct keys point at distinct objects. -/
def CacheInv (s : ProcState) : Prop :=
  (∀ k i, assocFind s.fontCache k = some i → i < s.fonts.length) ∧
  (∀ k k' i i', assocFind s.fontCache k = some i →
    assocFind s.fontCache k' = some i' → k ≠ k' → i ≠ i')

/-- Sample environment: non-Windows platform, no `FONT_NAME` setting,
empty registry, trivial backend metrics. -/
def envNoCfg : Env :=
  ⟨false, ⟨none⟩, fun _ => none, "",
   fun _ => (0, 0, 0, 0, 0), fun _ _ => (0, 0, 0, 0, 0, 0)⟩

/-- Sample environment: Windows platform, `FONT_NAME` containing only an
`"italic"` entry, a registry with no installed fonts. -/
def envWinItalicOnly : Env :=
  ⟨true, ⟨some ⟨none, some "MyItalic"⟩⟩, fun _ => none, "C:\\Windows\\Fonts",
   fun _ => (0, 0, 0, 0, 0), fun _ _ => (0, 0, 0, 0, 0, 0)⟩

/-- Sample registry: only `"Consolas"` is installed, at a concrete path. -/
def regConsolas : Registry :=
  fun s => if s = "Consolas" then some "C:\\Fonts\\consola.ttf" else none

/-- Sample already-resolved font object. -/
def sampleFont : FontObj :=
  ⟨"Gentium", 12, false, Slant.normal, some "Gentium", 0, 0, 0, 0, 0, []⟩

/-- Sample cairo context with a selected face and size. -/
def sampleCtx : CairoContext :=
  ⟨⟨some ("Arial", Slant.normal, Weight.normal), some 3⟩, []⟩

/-- The pristine logging state. -/
def emptyLog : LogSt := ⟨false, []⟩

/-- Sample environment: non-Windows, no `FONT_NAME`, with a backend whose
`text_extents` answers `(0, 0, 1, 2, 3, 0)` for every character. -/
def envExt : Env :=
  ⟨false, ⟨none⟩, fun _ => none, "",
   fun _ => (0, 0, 0, 0, 0), fun _ _ => (0, 0, 1, 2, 3, 0)⟩

/-- The glyph that `envExt`'s backend metrics produce for `'a'`
under `sampleFont`. -/
def sampleGlyph : FontGlyph :=
  ⟨'a', String.singleton 'a', ("Gentium", 12, false), 0, 0 + 1, -0 + 2, -0, 3⟩

/-- `sampleFont` after its glyph cache learned `'a'`. -/
def sampleFontA : FontObj :=
  ⟨"Gentium", 12, false, Slant.normal, some "Gentium", 0, 0, 0, 0, 0,
   [('a', sampleGlyph)]⟩

theorem pyOptFalsy_eq_false {o : Option String}
    (h : pyOptFalsy o = false) : ∃ s, o = some s ∧ s ≠ "" := by
  cases o with
  | none => simp [pyOptFalsy] at h
  | some s =>
      refine ⟨s, rfl, ?_⟩
      simpa [pyOptFalsy] using h

theorem pyOptFalsy_some_ne {s : String} (h : s ≠ "") :
    pyOptFalsy (some s) = false := by
  simp [pyOptFalsy, h]

theorem str_append_ne_empty (a b : String) (hb : b ≠ "") : a ++ b ≠ "" := by
  cases a with
  | mk la =>
      cases b with
      | mk lb =>
          intro h
          have hd : la ++ lb = [] := congrArg String.data h
          rcases List.append_eq_nil.mp hd with ⟨-, h2⟩
          exact hb (by rw [h2])

theorem osPathJoin_ne_empty (dir file : String) (hf : file ≠ "") :
    osPathJoin dir file ≠ "" := by
  unfold osPathJoin
  split
  · exact hf
  · split
    · exact str_append_ne_empty _ _ hf
    · exact str_append_ne_empty _ _ hf

theorem winTerminal_ne_empty (dir : String) (p : Option String × LogSt) :
    (winTerminal dir p).1 ≠ "" := by
  unfold winTerminal
  cases hfo : pyOptFalsy p.1 with
  | true => simpa using osPathJoin_ne_empty dir "arial.ttf" (by decide)
  | false =>
      obtain ⟨s, hs, hne⟩ := pyOptFalsy_eq_false hfo
      simp [hs, hne]

theorem nonWinTerminal_ne_empty (o : Option String) (lst0 : LogSt) :
    (nonWinTerminal o lst0).1 ≠ "" := by
  unfold nonWinTerminal
  cases hfo : pyOptFalsy o with
  | true => simp
  | false =>
      obtain ⟨s, hs, hne⟩ := pyOptFalsy_eq_false hfo
      simp [hs, hne]

theorem resolveWin_ok (cfg : Config) (reg : Registry) (it : Bool)
    (dir : String) (lst : LogSt) (h : CfgOkNormal cfg) :
    ∃ p, resolveWin cfg reg it dir lst = Except.ok (winTerminal dir p) := by
  obtain ⟨cf⟩ := cfg
  rcases h with hnone | ⟨fn, n, hsome, hn⟩
  · have hc : cf = none := hnone
    subst hc
    cases it <;> exact ⟨_, rfl⟩
  · have hc : cf = some fn := hsome
    subst hc
    obtain ⟨fnn, fni⟩ := fn
    have hc2 : fnn = some n := hn
    subst hc2
    cases it with
    | false => exact ⟨_, rfl⟩
    | true =>
        cases fni with
        | none => exact ⟨_, rfl⟩
        | some iid =>
            rcases hp : get_font_name reg iid lst with ⟨o1, l1⟩
            cases hfo : pyOptFalsy o1 with
            | true =>
                refine ⟨get_font_name reg n l1, ?_⟩
                simp [resolveWin, hp, hfo]
            | false =>
                refine ⟨(o1, l1), ?_⟩
                simp [resolveWin, hp, hfo]

theorem resolveNonWin_ok (cfg : Config) (it : Bool) (lst : LogSt)
    (h : CfgOkNormal cfg) :
    ∃ o lst0, resolveNonWin cfg it lst = Except.ok (nonWinTerminal o lst0) := by
  obtain ⟨cf⟩ := cfg
  rcases h with hnone | ⟨fn, n, hsome, hn⟩
  · have hc : cf = none := hnone
    subst hc
    cases it <;> exact ⟨_, _, rfl⟩
  · have hc : cf = some fn := hsome
    subst hc
    obtain ⟨fnn, fni⟩ := fn
    have hc2 : fnn = some n := hn
    subst hc2
    cases it with
    | false => exact ⟨_, _, rfl⟩
    | true =>
        cases hfo : pyOptFalsy fni with
        | true =>
            refine ⟨some n, lst, ?_⟩
            simp [resolveNonWin, hfo]
        | false =>
            refine ⟨fni, lst, ?_⟩
            simp [resolveNonWin, hfo]

theorem resolveFontName_ok (env : Env) (it : Bool) (lst : LogSt)
    (h : CfgOkNormal env.cfg) :
    ∃ nm lst', resolveFontName env it lst = Except.ok (nm, lst') ∧ nm ≠ "" := by
  unfold resolveFontName
  cases hw : env.isWin with
  | true =>
      obtain ⟨p, hp⟩ := resolveWin_ok env.cfg env.fontRegistry it env.fontsDir lst h
      exact ⟨_, _, by simpa using hp, winTerminal_ne_empty _ _⟩
  | false =>
      obtain ⟨o, lst0, hp⟩ := resolveNonWin_ok env.cfg it lst h
      exact ⟨_, _, by simpa using hp, nonWinTerminal_ne_empty _ _⟩

theorem loadInto_ok_shape {env : Env} {f : FontObj} {ctx : CairoContext}
    {lst : LogSt} {f1 : FontObj} {ctx2 : CairoContext} {lst1 : LogSt}
    (h : loadInto env f ctx lst = Except.ok (f1, ctx2, lst1)) :
    ctx2 = (ctx.select_font_face (f1.font_name.getD "") f1.slant
      Weight.normal).set_font_size f1.size ∧
    f1.name = f.name ∧ f1.size = f.size ∧ f1.isItalic = f.isItalic ∧
    f1.slant = f.slant ∧ f1.glyphCache = f.glyphCache := by
  unfold loadInto at h
  cases hfo : pyOptFalsy f.font_name with
  | false =>
      rw [hfo] at h
      simp at h
      obtain ⟨h1, h2, h3⟩ := h
      subst h1
      exact ⟨h2.symm, rfl, rfl, rfl, rfl, rfl⟩
  | true =>
      rw [hfo] at h
      cases hres : resolveFontName env f.isItalic lst with
      | error e => rw [hres] at h; simp at h
      | ok p =>
          obtain ⟨nm, lst'⟩ := p
          rw [hres] at h
          simp at h
          obtain ⟨h1, h2, h3⟩ := h
          subst h1
          exact ⟨h2.symm, rfl, rfl, rfl, rfl, rfl⟩

theorem loadInto_ok_of_cfgOk {env : Env} (h : CfgOkNormal env.cfg)
    (f : FontObj) (ctx : CairoContext) (lst : LogSt) :
    ∃ f1 ctx2 lst1, loadInto env f ctx lst = Except.ok (f1, ctx2, lst1) ∧
      pyOptFalsy f1.font_name = false := by
  cases hfo : pyOptFalsy f.font_name with
  | false =>
      refine ⟨f, (ctx.select_font_face (f.font_name.getD "") f.slant
        Weight.normal).set_font_size f.size, lst, ?_, hfo⟩
      unfold loadInto
      rw [hfo]
      rfl
  | true =>
      obtain ⟨nm, lst', heq, hne⟩ := resolveFontName_ok env f.isItalic lst h
      refine ⟨{ f with font_name := some nm },
        (ctx.select_font_face nm ({ f with font_name := some nm }).slant
          Weight.normal).set_font_size f.size, lst', ?_,
        pyOptFalsy_some_ne hne⟩
      unfold loadInto
      rw [hfo, heq]
      rfl

theorem Font_init_ok_of_cfgOk {env : Env} (h : CfgOkNormal env.cfg)
    (name : String) (size : Rat) (isItalic : Bool)
    (ctx0 : Option CairoContext) (lst : LogSt) :
    ∃ f ctx1 lst1,
      Font_init env name size isItalic ctx0 lst = Except.ok (f, ctx1, lst1) ∧
      pyOptFalsy f.font_name = false := by
  cases ctx0 with
  | none =>
      obtain ⟨f1, ctx2, lst1, heq, hfn⟩ := loadInto_ok_of_cfgOk h
        ⟨name, size, isItalic, if isItalic then Slant.italic else Slant.normal,
         none, 0, 0, 0, 0, 0, []⟩ initialContext.save lst
      refine ⟨{ f1 with
          ascent := (env.fontExtents ctx2.current).1
          descent := (env.fontExtents ctx2.current).2.1
          height := (env.fontExtents ctx2.current).2.2.1
          maxXAdvance := (env.fontExtents ctx2.current).2.2.2.1
          maxYAdvance := (env.fontExtents ctx2.current).2.2.2.2 },
        ctx2.restore, lst1, ?_, hfn⟩
      simp only [Font_init]
      rw [heq]
  | some c =>
      obtain ⟨f1, ctx2, lst1, heq, hfn⟩ := loadInto_ok_of_cfgOk h
        ⟨name, size, isItalic, if isItalic then Slant.italic else Slant.normal,
         none, 0, 0, 0, 0, 0, []⟩ c.save lst
      refine ⟨{ f1 with
          ascent := (env.fontExtents ctx2.current).1
          descent := (env.fontExtents ctx2.current).2.1
          height := (env.fontExtents ctx2.current).2.2.1
          maxXAdvance := (env.fontExtents ctx2.current).2.2.2.1
          maxYAdvance := (env.fontExtents ctx2.current).2.2.2.2 },
        ctx2.restore, lst1, ?_, hfn⟩
      simp only [Font_init]
      rw [heq]

theorem Font_init_ctx {env : Env} {name : String} {size : Rat}
    {isItalic : Bool} {c : CairoContext} {lst : LogSt} {f : FontObj}
    {ctx1 : CairoContext} {lst1 : LogSt}
    (h : Font_init env name size isItalic (some c) lst =
      Except.ok (f, ctx1, lst1)) : ctx1 = c := by
  simp only [Font_init] at h
  cases hl : loadInto env
      ⟨name, size, isItalic, if isItalic then Slant.italic else Slant.normal,
       none, 0, 0, 0, 0, 0, []⟩ c.save lst with
  | error e => rw [hl] at h; simp at h
  | ok t =>
      obtain ⟨f1, ctx2, lst2⟩ := t
      rw [hl] at h
      simp only [Except.ok.injEq, Prod.mk.injEq] at h
      obtain ⟨-, hctx, -⟩ := h
      obtain ⟨hsh, -⟩ := loadInto_ok_shape hl
      rw [← hctx, hsh]
      rfl

theorem FontGlyph_init_parts {env : Env} {f : FontObj} {ch : Char}
    {ctx : CairoContext} {lst : LogSt} {g : FontGlyph} {f1 : FontObj}
    {ctx1 : CairoContext} {lst1 : LogSt}
    (h : FontGlyph_init env f ch ctx lst = Except.ok (g, f1, ctx1, lst1)) :
    g.char = ch ∧ ctx1 = ctx ∧ f1.glyphCache = f.glyphCache := by
  simp only [FontGlyph_init] at h
  cases hl : loadInto env f ctx.save lst with
  | error e => rw [hl] at h; simp at h
  | ok t =>
      obtain ⟨f2, ctx2, lst2⟩ := t
      rw [hl] at h
      simp only [Except.ok.injEq, Prod.mk.injEq] at h
      obtain ⟨hg, hf, hctx, -⟩ := h
      obtain ⟨hsh, -, -, -, -, hgc⟩ := loadInto_ok_shape hl
      refine ⟨?_, ?_, ?_⟩
      · rw [← hg]
      · rw [← hctx, hsh]
        rfl
      · rw [← hf, hgc]

theorem assocFind_mem {α β : Type} [DecidableEq α] {l : List (α × β)}
    {k : α} {v : β} (h : assocFind l k = some v) : (k, v) ∈ l := by
  induction l with
  | nil => simp [assocFind] at h
  | cons p rest ih =>
      obtain ⟨k0, v0⟩ := p
      unfold assocFind at h
      by_cases hk : k = k0
      · rw [if_pos hk] at h
        injection h with h
        rw [hk, h]
        exact List.mem_cons_self _ _
      · rw [if_neg hk] at h
        exact List.mem_cons_of_mem _ (ih h)

theorem Font_get_step {env : Env} {k : Key} {s : ProcState} {i : Nat}
    {s' : ProcState} (hInv : CacheInv s)
    (h : Font_get env k s = Except.ok (i, s')) :
    CacheInv s' ∧ assocFind s'.fontCache k = some i ∧
      (∀ k0 i0, assocFind s.fontCache k0 = some i0 →
        assocFind s'.fontCache k0 = some i0) := by
  unfold Font_get at h
  cases hfind : assocFind s.fontCache k with
  | some j =>
      rw [hfind] at h
      simp only [Except.ok.injEq, Prod.mk.injEq] at h
      obtain ⟨h1, h2⟩ := h
      subst h1
      subst h2
      exact ⟨hInv, hfind, fun _ _ hh => hh⟩
  | none =>
      rw [hfind] at h
      cases hinit : Font_init env k.1 k.2.1 k.2.2 s.ctx s.logSt with
      | error e => rw [hinit] at h; simp at h
      | ok t =>
          obtain ⟨f, ctx1, lst1⟩ := t
          rw [hinit] at h
          simp only [Except.ok.injEq, Prod.mk.injEq] at h
          obtain ⟨h1, h2⟩ := h
          subst h1
          subst h2
          refine ⟨⟨?_, ?_⟩, ?_, ?_⟩
          · intro k1 i1 h1
            unfold assocFind at h1
            simp only [List.length_append, List.length_cons, List.length_nil]
            by_cases hk : k1 = k
            · rw [if_pos hk] at h1
              injection h1 with h1
              omega
            · rw [if_neg hk] at h1
              have := hInv.1 k1 i1 h1
              omega
          · intro k1 k2 i1 i2 h1 h2 hne
            unfold assocFind at h1 h2
            by_cases hk1 : k1 = k
            · rw [if_pos hk1] at h1
              injection h1 with h1
              have hk2 : ¬ k2 = k := fun hh => hne (hk1.trans hh.symm)
              rw [if_neg hk2] at h2
              have := hInv.1 k2 i2 h2
              omega
            · rw [if_neg hk1] at h1
              by_cases hk2 : k2 = k
              · rw [if_pos hk2] at h2
                injection h2 with h2
                have := hInv.1 k1 i1 h1
                omega
              · rw [if_neg hk2] at h2
                exact hInv.2 k1 k2 i1 i2 h1 h2 hne
          · unfold assocFind
            rw [if_pos rfl]
          · intro k0 i0 h0
            unfold assocFind
            by_cases hk : k0 = k
            · rw [hk] at h0
              rw [h0] at hfind
              cases hfind
            · rw [if_neg hk]
              exact h0

theorem runGets_trace {env : Env} : ∀ (ks : List Key) (s : ProcState)
    (is : List Nat) (s' : ProcState), CacheInv s →
    runGets env ks s = Except.ok (is, s') →
    CacheInv s' ∧
    (∀ k0 i0, assocFind s.fontCache k0 = some i0 →
      assocFind s'.fontCache k0 = some i0) ∧
    (∀ (a : Nat) (k : Key) (i : Nat), ks[a]? = some k → is[a]? = some i →
      assocFind s'.fontCache k = some i)
  | [], s, is, s', hInv, h => by
      unfold runGets at h
      simp only [Except.ok.injEq, Prod.mk.injEq] at h
      obtain ⟨h1, h2⟩ := h
      subst h1
      subst h2
      refine ⟨hInv, fun _ _ hh => hh, ?_⟩
      intro a k i hk _
      simp at hk
  | k :: rest, s, is, s', hInv, h => by
      unfold runGets at h
      cases h1 : Font_get env k s with
      | error e => rw [h1] at h; simp at h
      | ok t =>
          obtain ⟨i, s1⟩ := t
          rw [h1] at h
          dsimp only at h
          cases h2 : runGets env rest s1 with
          | error e => rw [h2] at h; simp at h
          | ok t2 =>
              obtain ⟨is1, s2⟩ := t2
              rw [h2] at h
              simp only [Except.ok.injEq, Prod.mk.injEq] at h
              obtain ⟨h3, h4⟩ := h
              subst h3
              subst h4
              obtain ⟨hInv1, hfk, hpres⟩ := Font_get_step hInv h1
              obtain ⟨hInv2, hpres2, hpos⟩ :=
                runGets_trace rest s1 is1 s2 hInv1 h2
              refine ⟨hInv2, fun k0 i0 hh => hpres2 k0 i0 (hpres k0 i0 hh), ?_⟩
              intro a k0 i0 hk0 hi0
              cases a with
              | zero =>
                  simp only [List.getElem?_cons_zero, Option.some.injEq] at hk0 hi0
                  subst hk0
                  subst hi0
                  exact hpres2 _ _ hfk
              | succ a =>
                  simp only [List.getElem?_cons_succ] at hk0 hi0
                  exact hpos a k0 i0 hk0 hi0

theorem Font_get_ok_of_cfgOk {env : Env} (h : CfgOkNormal env.cfg)
    (k : Key) (s : ProcState) (hs : FontsInv s) :
    ∃ i s1, Font_get env k s = Except.ok (i, s1) ∧ FontsInv s1 := by
  cases hfind : assocFind s.fontCache k with
  | some j =>
      refine ⟨j, s, ?_, hs⟩
      unfold Font_get
      rw [hfind]
  | none =>
      obtain ⟨f, ctx1, lst1, hinit, hfn⟩ :=
        Font_init_ok_of_cfgOk h k.1 k.2.1 k.2.2 s.ctx s.logSt
      refine ⟨s.fonts.length,
        ⟨(k, s.fonts.length) :: s.fontCache, s.fonts ++ [f],
         some ctx1, lst1⟩, ?_, ?_⟩
      · unfold Font_get
        rw [hfind, hinit]
      · intro g hg
        rcases List.mem_append.mp hg with hg | hg
        · exact hs g hg
        · rcases List.mem_singleton.mp hg with rfl
          exact hfn

theorem runGets_ok_of_cfgOk {env : Env} (h : CfgOkNormal env.cfg) :
    ∀ (ks : List Key) (s : ProcState), FontsInv s →
    ∃ is s', runGets env ks s = Except.ok (is, s') ∧ FontsInv s'
  | [], s, hs => ⟨[], s, rfl, hs⟩
  | k :: rest, s, hs => by
      obtain ⟨i, s1, h1, hs1⟩ := Font_get_ok_of_cfgOk h k s hs
      obtain ⟨is1, s2, h2, hs2⟩ := runGets_ok_of_cfgOk h rest s1 hs1
      refine ⟨i :: is1, s2, ?_, hs2⟩
      unfold runGets
      rw [h1]
      dsimp only
      rw [h2]

/-- C9: for every pair of characters and every `Font` object in any
state, `getKerningDistance(charLeft, charRight)` returns exactly `0.0`. -/
theorem C9_kerning_stub_zero (f : FontObj) (charLeft charRight : Char) :
    f.getKerningDistance charLeft charRight = 0 := rfl

/-- C8: every `FontGlyph` constructed over a backend whose character
extents have `width ≥ 0` and `xAdvance ≥ 0` satisfies `xMin ≤ xMax` and
`advance ≥ 0`. -/
theorem C8_glyph_metrics_sane {env : Env} {f : FontObj} {ch : Char}
    {ctx : CairoContext} {lst : LogSt} {g : FontGlyph} {f1 : FontObj}
    {ctx1 : CairoContext} {lst1 : LogSt}
    (hbackend : ∀ st txt, 0 ≤ (env.textExtents st txt).2.2.1 ∧
      0 ≤ (env.textExtents st txt).2.2.2.2.1)
    (h : FontGlyph_init env f ch ctx lst = Except.ok (g, f1, ctx1, lst1)) :
    g.xMin ≤ g.xMax ∧ 0 ≤ g.advance := by
  simp only [FontGlyph_init] at h
  cases hl : loadInto env f ctx.save lst with
  | error e => rw [hl] at h; simp at h
  | ok t =>
      obtain ⟨f2, ctx2, lst2⟩ := t
      rw [hl] at h
      simp only [Except.ok.injEq, Prod.mk.injEq] at h
      obtain ⟨hg, -, -, -⟩ := h
      obtain ⟨hw, hxa⟩ :=
        hbackend ctx2.current (String.singleton ch)
      rw [← hg]
      constructor
      · show (env.textExtents ctx2.current (String.singleton ch)).1 ≤
          (env.textExtents ctx2.current (String.singleton ch)).1 +
          (env.textExtents ctx2.current (String.singleton ch)).2.2.1
        linarith
      · exact hxa

/-- C8 witness: the theorem applied to the concrete glyph of `'a'` under
`envExt` and `sampleFont`. -/
theorem C8_glyph_metrics_sane_witness :
    sampleGlyph.xMin ≤ sampleGlyph.xMax ∧ 0 ≤ sampleGlyph.advance :=
  @C8_glyph_metrics_sane envExt sampleFont 'a' sampleCtx emptyLog
    sampleGlyph sampleFont sampleCtx emptyLog
    (fun _ _ => ⟨by norm_num [envExt], by norm_num [envExt]⟩) (by rfl)

/-- C2 (code bug): the glyph transform puts `yMin` at
`-yBearing + height`, ABOVE `yMax = -yBearing`, contradicting both the
claim and the code's own comment (the FreeType glyph-box diagram, where
`yMin` is the descent-ward, smaller extent); at the typical extents
`(0, -10, 5, 12, 6, 0)` it yields `yMin = 22 > yMax = 10`. -/
theorem C2_yMin_yMax_swapped :
    glyphExtentsTransform 0 (-10) 5 12 6 0 = (0, 5, 22, 10, 6) ∧
    ¬ (glyphExtentsTransform 0 (-10) 5 12 6 0).2.2.1 ≤
      (glyphExtentsTransform 0 (-10) 5 12 6 0).2.2.2.1 := by
  constructor
  · show ((0 : Rat), 0 + 5, -(-10 : Rat) + 12, -(-10 : Rat), (6 : Rat)) =
      (0, 5, 22, 10, 6)
    norm_num
  · show ¬ (-(-10 : Rat) + 12 ≤ -(-10 : Rat))
    norm_num

/-- C6: once `font_name` is set (truthy), every further `loadInto` leaves
the font object and the logging state unchanged (the resolution machine
is not re-run) and selects the stored identifier into the context. -/
theorem C6_font_name_frozen (env : Env) (f : FontObj) (ctx : CairoContext)
    (lst : LogSt) (nm : String) (h1 : f.font_name = some nm) (h2 : nm ≠ "") :
    loadInto env f ctx lst = Except.ok (f,
      (ctx.select_font_face nm f.slant Weight.normal).set_font_size f.size,
      lst) := by
  have hfo : pyOptFalsy f.font_name = false := by
    rw [h1]; exact pyOptFalsy_some_ne h2
  have hred : loadInto env f ctx lst = Except.ok (f,
      (ctx.select_font_face (f.font_name.getD "") f.slant
        Weight.normal).set_font_size f.size, lst) := by
    unfold loadInto
    rw [hfo]
    rfl
  rw [hred, h1]
  rfl

/-- C6 witness: the theorem applied to `sampleFont` (already resolved to
`"Gentium"`). -/
theorem C6_font_name_frozen_witness :
    loadInto envNoCfg sampleFont sampleCtx emptyLog = Except.ok (sampleFont,
      (sampleCtx.select_font_face "Gentium" sampleFont.slant
        Weight.normal).set_font_size sampleFont.size, emptyLog) :=
  C6_font_name_frozen envNoCfg sampleFont sampleCtx emptyLog "Gentium"
    rfl (by decide)

/-- C10: both `Font.__init__` and `FontGlyph.__init__` bracket their work
in `save`/`restore`, so whenever they return, the shared context is
exactly as before the call. -/
theorem C10_context_save_restore (env : Env) (name : String) (size : Rat)
    (isItalic : Bool) (c : CairoContext) (lst : LogSt) (f : FontObj)
    (ch : Char) (ctx : CairoContext) (lst2 : LogSt)
    (c1 c2 : CairoContext) :
    (ctxOfFontInit env name size isItalic (some c) lst = some c1 →
      c1 = c) ∧
    (ctxOfGlyphInit env f ch ctx lst2 = some c2 → c2 = ctx) := by
  constructor
  · intro h
    unfold ctxOfFontInit at h
    cases hinit : Font_init env name size isItalic (some c) lst with
    | error e => rw [hinit] at h; cases h
    | ok t =>
        obtain ⟨f', c', l'⟩ := t
        rw [hinit] at h
        injection h with h
        rw [← h]
        exact Font_init_ctx hinit
  · intro h
    unfold ctxOfGlyphInit at h
    cases hinit : FontGlyph_init env f ch ctx lst2 with
    | error e => rw [hinit] at h; cases h
    | ok t =>
        obtain ⟨g', f', c', l'⟩ := t
        rw [hinit] at h
        injection h with h
        rw [← h]
        exact (FontGlyph_init_parts hinit).2.1

/-- C10 witness: applying the theorem to concrete constructions under
`envNoCfg`, whose saved-and-restored context is `sampleCtx`. -/
theorem C10_context_save_restore_witness :
    sampleCtx = sampleCtx ∧ sampleCtx = sampleCtx :=
  ⟨(C10_context_save_restore envNoCfg "a" 1 false sampleCtx emptyLog
      sampleFont 'a' sampleCtx emptyLog sampleCtx sampleCtx).1 (by rfl),
   (C10_context_save_restore envNoCfg "a" 1 false sampleCtx emptyLog
      sampleFont 'a' sampleCtx emptyLog sampleCtx sampleCtx).2 (by rfl)⟩

/-- C5 counterexample: on the Windows branch with
`FONT_NAME = {"normal": "Consolas"}` and `"Consolas"` installed, an
italic request resolves `font_name` to the registry FILE PATH, not to the
`"normal"` entry's value `"Consolas"` as the claim states. -/
theorem C5_win_filepath_counterexample :
    resolvedName (resolveWin ⟨some ⟨some "Consolas", none⟩⟩ regConsolas
      true "C:\\Windows" emptyLog) = some "C:\\Fonts\\consola.ttf" ∧
    resolvedName (resolveWin ⟨some ⟨some "Consolas", none⟩⟩ regConsolas
      true "C:\\Windows" emptyLog) ≠ some "Consolas" := by
  constructor
  · rfl
  · decide

/-- C5 (amended): with a settings mapping containing only `"normal"`, an
italic request resolves exactly as the non-italic request does, on both
platform branches; and on the non-Windows branch, when the `"normal"`
value is non-empty, the italic request resolves to that value itself. -/
theorem C5_fallback_determinism (reg : Registry) (dir n : String)
    (lst : LogSt) :
    resolveWin ⟨some ⟨some n, none⟩⟩ reg true dir lst =
      resolveWin ⟨some ⟨some n, none⟩⟩ reg false dir lst ∧
    resolveNonWin ⟨some ⟨some n, none⟩⟩ true lst =
      resolveNonWin ⟨some ⟨some n, none⟩⟩ false lst ∧
    (n ≠ "" → resolveNonWin ⟨some ⟨some n, none⟩⟩ true lst =
      Except.ok (n, lst)) := by
  refine ⟨rfl, rfl, ?_⟩
  intro h
  have hd : decide (n = "") = false := by simp [h]
  simp [resolveNonWin, nonWinTerminal, pyOptFalsy, hd]

/-- C5 witness: the amended theorem applied with the `"Consolas"`
configuration. -/
theorem C5_fallback_determinism_witness :
    resolveNonWin ⟨some ⟨some "Consolas", none⟩⟩ true emptyLog =
      Except.ok ("Consolas", emptyLog) :=
  (C5_fallback_determinism regConsolas "C:\\Windows" "Consolas"
    emptyLog).2.2 (by decide)

/-- C3: across any successful sequence of `Font.get` calls from process
start, two calls receive the identical object (same pool index) exactly
when their key triples are equal. -/
theorem C3_flyweight_uniqueness (env : Env) (ks : List Key)
    (is : List Nat) (h : idsOf (runGets env ks initState) = some is)
    (a b : Nat) (k k' : Key) (i i' : Nat)
    (hka : ks[a]? = some k) (hkb : ks[b]? = some k')
    (hia : is[a]? = some i) (hib : is[b]? = some i') :
    k = k' ↔ i = i' := by
  unfold idsOf at h
  cases hr : runGets env ks initState with
  | error e => rw [hr] at h; cases h
  | ok t =>
      obtain ⟨is0, s'⟩ := t
      rw [hr] at h
      injection h with h
      subst h
      have hInv0 : CacheInv initState := by
        constructor
        · intro k0 i0 h0
          simp [assocFind, initState] at h0
        · intro k1 k2 i1 i2 h1 h2 hne
          simp [assocFind, initState] at h1
      obtain ⟨hInv, -, hpos⟩ := runGets_trace ks initState is0 s' hInv0 hr
      have h1 := hpos a k i hka hia
      have h2 := hpos b k' i' hkb hib
      constructor
      · intro hkk
        subst hkk
        rw [h1] at h2
        exact Option.some.inj h2
      · intro hii
        by_contra hkk
        exact hInv.2 k k' i i' h1 h2 hkk hii

/-- C3 witness: two equal requests under `envNoCfg` receive the same
index, via the theorem at positions 0 and 1 of a concrete run. -/
theorem C3_flyweight_uniqueness_witness :
    (("a", (1 : Rat), false) : Key) = ("a", 1, false) ↔ (0 : Nat) = 0 :=
  C3_flyweight_uniqueness envNoCfg [("a", 1, false), ("a", 1, false)]
    [0, 0] (by rfl) 0 1 ("a", 1, false) ("a", 1, false) 0 0
    (by rfl) (by rfl) (by rfl) (by rfl)

/-- C1 counterexample: with `FONT_NAME = {"italic": "MyItalic"}` (a
mapping over the keys, but without `"normal"`) on the Windows branch and
the configured italic font not installed, `Font.get` raises a `KeyError`
instead of falling back — the claim's "never raises" is false. -/
theorem C1_keyError_counterexample :
    Font_get envWinItalicOnly ("t", 12, true) initState =
      Except.error (PyErr.keyError "normal") := by rfl

/-- C1 (amended): for every configuration whose `FONT_NAME` is absent or
contains a `"normal"` entry, every sequence of `Font.get` requests
returns normally and every pooled `Font` has a truthy (non-null,
non-empty) resolved `font_name`. -/
theorem C1_no_raise_with_normal_cfg (env : Env) (ks : List Key)
    (h : CfgOkNormal env.cfg) :
    isOkB (runGets env ks initState) = true ∧
    ∀ f ∈ fontsOf (runGets env ks initState),
      pyOptFalsy f.font_name = false := by
  obtain ⟨is, s', heq, hinv⟩ := runGets_ok_of_cfgOk h ks initState
    (by intro g hg; simp [initState] at hg)
  constructor
  · unfold isOkB
    rw [heq]
  · unfold fontsOf
    rw [heq]
    exact hinv

/-- C1 witness: the amended theorem applied to a concrete absent-config
environment and one request. -/
theorem C1_no_raise_with_normal_cfg_witness :
    isOkB (runGets envNoCfg [("a", 1, false)] initState) = true :=
  (C1_no_raise_with_normal_cfg envNoCfg [("a", 1, false)] (Or.inl rfl)).1

/-- C4 counterexample: with `FONT_NAME` missing, two `Font.get` calls
with distinct keys log the missing-configuration diagnostic TWICE — the
claim's "exactly once per process" is false (only the `get_font_name`
registry diagnostics are guarded by the flag). -/
theorem C4_two_diagnostics_counterexample :
    logOf (runGets envNoCfg [("a", 1, false), ("b", 1, false)] initState) =
      [LogMsg.errorNoFontNameSetting, LogMsg.errorNoFontNameSetting] := by
  rfl

/-- C4 (amended): on the non-Windows branch with `FONT_NAME` missing,
the missing-configuration diagnostic is logged once per `Font`
CONSTRUCTION (each cache miss appends exactly one), not once per
process; a cache hit logs nothing.  The process-wide flag only guards
the registry diagnostics of `get_font_name`. -/
theorem C4_diagnostic_per_construction (env : Env) (k : Key)
    (s : ProcState) (henv : env.isWin = false)
    (hcfg : env.cfg.FONT_NAME = none) :
    (∀ i, assocFind s.fontCache k = some i →
      getLog (Font_get env k s) = some s.logSt.log) ∧
    (assocFind s.fontCache k = none →
      getLog (Font_get env k s) =
        some (s.logSt.log ++ [LogMsg.errorNoFontNameSetting])) := by
  obtain ⟨name, size, it⟩ := k
  constructor
  · intro i hf
    unfold Font_get
    rw [hf]
    rfl
  · intro hf
    have hres : resolveFontName env it s.logSt =
        Except.ok ("Helvetica",
          s.logSt.addMsg LogMsg.errorNoFontNameSetting) := by
      unfold resolveFontName
      rw [henv]
      show resolveNonWin env.cfg it s.logSt =
        Except.ok ("Helvetica", s.logSt.addMsg LogMsg.errorNoFontNameSetting)
      unfold resolveNonWin
      rw [hcfg]
      cases it <;> rfl
    have hload : ∀ (c : CairoContext), loadInto env
        ⟨name, size, it, if it then Slant.italic else Slant.normal,
         none, 0, 0, 0, 0, 0, []⟩ c s.logSt =
        Except.ok
          (⟨name, size, it, if it then Slant.italic else Slant.normal,
            some "Helvetica", 0, 0, 0, 0, 0, []⟩,
           (c.select_font_face "Helvetica"
             (if it then Slant.italic else Slant.normal)
             Weight.normal).set_font_size size,
           s.logSt.addMsg LogMsg.errorNoFontNameSetting) := by
      intro c
      unfold loadInto
      rw [hres]
      rfl
    unfold Font_get
    rw [hf]
    cases s.ctx with
    | none =>
        simp only [Font_init]
        rw [hload initialContext.save]
        rfl
    | some c =>
        simp only [Font_init]
        rw [hload c.save]
        rfl

/-- C4 witness: the amended theorem's miss case at process start. -/
theorem C4_diagnostic_per_construction_witness :
    getLog (Font_get envNoCfg ("a", 1, false) initState) =
      some ([] ++ [LogMsg.errorNoFontNameSetting]) :=
  (C4_diagnostic_per_construction envNoCfg ("a", 1, false) initState
    rfl rfl).2 (by rfl)

/-- C7: `getGlyph` is memoized per font instance: a repeated call with
the same character returns the identical cached glyph and leaves all
state untouched, while a call with any other character returns a
distinct glyph object. -/
theorem C7_glyph_memoization (env : Env) (f : FontObj)
    (ctx : CairoContext) (lst : LogSt) (ch ch' : Char) (g1 : FontGlyph)
    (f1 : FontObj) (ctx1 : CairoContext) (lst1 : LogSt)
    (hInv : GlyphInv f)
    (h : FontObj.getGlyph env f ctx lst ch = Except.ok (g1, f1, ctx1, lst1)) :
    FontObj.getGlyph env f1 ctx1 lst1 ch = Except.ok (g1, f1, ctx1, lst1) ∧
    (∀ g2 f2 ctx2 lst2, ch' ≠ ch →
      FontObj.getGlyph env f1 ctx1 lst1 ch' = Except.ok (g2, f2, ctx2, lst2) →
      g2 ≠ g1) := by
  unfold FontObj.getGlyph at h
  cases hfind : assocFind f.glyphCache ch with
  | some g =>
      rw [hfind] at h
      simp only [Except.ok.injEq, Prod.mk.injEq] at h
      obtain ⟨hg, hf, hctx, hlst⟩ := h
      subst hg
      subst hf
      subst hctx
      subst hlst
      have hchar : g.char = ch := hInv (ch, g) (assocFind_mem hfind)
      constructor
      · unfold FontObj.getGlyph
        rw [hfind]
      · intro g2 f2 ctx2 lst2 hne h2
        unfold FontObj.getGlyph at h2
        cases hfind2 : assocFind f.glyphCache ch' with
        | some gq =>
            rw [hfind2] at h2
            simp only [Except.ok.injEq, Prod.mk.injEq] at h2
            obtain ⟨hg2, -, -, -⟩ := h2
            have hq : gq.char = ch' := hInv (ch', gq) (assocFind_mem hfind2)
            intro heq
            rw [hg2, heq, hchar] at hq
            exact hne hq.symm
        | none =>
            rw [hfind2] at h2
            dsimp only at h2
            cases hinit : FontGlyph_init env f ch' ctx lst with
            | error e => rw [hinit] at h2; simp at h2
            | ok t =>
                obtain ⟨gq, fq, cq, lq⟩ := t
                rw [hinit] at h2
                simp only [Except.ok.injEq, Prod.mk.injEq] at h2
                obtain ⟨hg2, -, -, -⟩ := h2
                have hq : gq.char = ch' := (FontGlyph_init_parts hinit).1
                intro heq
                rw [hg2, heq, hchar] at hq
                exact hne hq.symm
  | none =>
      rw [hfind] at h
      dsimp only at h
      cases hinit : FontGlyph_init env f ch ctx lst with
      | error e => rw [hinit] at h; simp at h
      | ok t =>
          obtain ⟨g, fL, cL, lL⟩ := t
          rw [hinit] at h
          simp only [Except.ok.injEq, Prod.mk.injEq] at h
          obtain ⟨hg, hf, hctx, hlst⟩ := h
          obtain ⟨hchar0, hcq, hgc⟩ := FontGlyph_init_parts hinit
          subst hg
          subst hctx
          subst hlst
          have hcache : f1.glyphCache = (ch, g) :: fL.glyphCache := by
            rw [← hf]
          constructor
          · unfold FontObj.getGlyph
            rw [hcache]
            unfold assocFind
            rw [if_pos rfl]
          · intro g2 f2 ctx2 lst2 hne h2
            unfold FontObj.getGlyph at h2
            rw [hcache] at h2
            unfold assocFind at h2
            rw [if_neg hne, hgc] at h2
            cases hfind2 : assocFind f.glyphCache ch' with
            | some gq =>
                rw [hfind2] at h2
                simp only [Except.ok.injEq, Prod.mk.injEq] at h2
                obtain ⟨hg2, -, -, -⟩ := h2
                have hq : gq.char = ch' := hInv (ch', gq) (assocFind_mem hfind2)
                intro heq
                rw [hg2, heq, hchar0] at hq
                exact hne hq.symm
            | none =>
                rw [hfind2] at h2
                dsimp only at h2
                cases hinit2 : FontGlyph_init env f1 ch' cL lL with
                | error e => rw [hinit2] at h2; simp at h2
                | ok t2 =>
                    obtain ⟨gq, fq, cq2, lq2⟩ := t2
                    rw [hinit2] at h2
                    simp only [Except.ok.injEq, Prod.mk.injEq] at h2
                    obtain ⟨hg2, -, -, -⟩ := h2
                    have hq : gq.char = ch' := (FontGlyph_init_parts hinit2).1
                    intro heq
                    rw [hg2, heq, hchar0] at hq
                    exact hne hq.symm

/-- C7 witness: the repeated-call clause at the concrete glyph of `'a'`
under `envExt`. -/
theorem C7_glyph_memoization_witness :
    FontObj.getGlyph envExt sampleFontA sampleCtx emptyLog 'a' =
      Except.ok (sampleGlyph, sampleFontA, sampleCtx, emptyLog) :=
  (C7_glyph_memoization envExt sampleFont sampleCtx emptyLog 'a' 'b'
    sampleGlyph sampleFontA sampleCtx emptyLog
    (fun p hp => absurd hp (List.not_mem_nil p)) (by rfl)).1

end EnsoFont
